import Mathlib

set_option maxRecDepth 100000

/-!
Shallow embedding of the SFC decomposition-and-synthesis engine
(`src/sfc.ts` of grudev32/rollup-vue) together with proofs about the
specified properties of its routing, query-encoding and assembly logic.

External collaborators (`@vue/compiler-sfc`'s `parse` and `compileScript`,
node's `path.relative`, the `hash-sum` hash) are taken as function
parameters; repository utilities that are not part of the given sources
(`setDescriptor`, `createRollupError`) are modelled from the spec and
carry a doc comment saying so.  JavaScript-specific semantics (truthiness,
string coercion of `true`/`undefined`, object-key lookup) are embedded
explicitly.
-/

/-- Value of one attribute of an SFC block: either a string or the
JavaScript boolean `true` used by the parser for bare attributes. -/
inductive AttrVal where
  | str (s : String)
  | boolT
deriving DecidableEq, Repr

/-- JavaScript truthiness of an attribute value (`''` is falsy, `true` is
truthy). -/
def valTruthy : AttrVal → Bool
  | .str s => !(s.isEmpty)
  | .boolT => true

/-- JavaScript string coercion of an attribute value (`String(true)` is
`"true"`). -/
def valString : AttrVal → String
  | .str s => s
  | .boolT => "true"

/-- JavaScript truthiness of an optional string (absent and `''` falsy). -/
def optStrTruthy : Option String → Bool
  | some s => !(s.isEmpty)
  | none => false

/-- JavaScript truthiness of an optional attribute value. -/
def optValTruthy : Option AttrVal → Bool
  | some v => valTruthy v
  | none => false

/-- JavaScript `a || b` for an optional string with a string default,
as used for `block.src || resourcePath`. -/
def jsOrStr (o : Option String) (d : String) : String :=
  match o with
  | some s => if s.isEmpty then d else s
  | none => d

/-- Template-literal interpolation of a possibly-undefined string
(`undefined` prints as `"undefined"`). -/
def jsTemplateStr : Option String → String
  | some s => s
  | none => "undefined"

/-- Object-key lookup in an attribute map (`attrs[name]`, `name in attrs`). -/
def lookupAttr (k : String) (attrs : List (String × AttrVal)) : Option AttrVal :=
  (attrs.find? (fun p => p.1 == k)).map Prod.snd

/-! ### Percent escaping

`qs.escape` of node's `querystring` is external to the repository.
Modelled from the spec: "Every remaining key is percent-encoded"
(§4.3 rule 2).  The model keeps URL-safe characters and writes any other
code point as `%` followed by six hex digits; it shares the properties
the spec relies on (injectivity, output free of `&`, `=` and raw `%`),
though node's byte-level format (UTF-8 `%XX` pairs) differs. -/

/-- Characters a percent encoder passes through unchanged. -/
def safeChar (c : Char) : Bool :=
  c.isAlphanum || c = '-' || c = '_' || c = '.' || c = '~' ||
    c = '!' || c = '*' || c = '(' || c = ')'

/-- Hex digit character for a value below 16. -/
def hexDigit (n : Nat) : Char :=
  if n < 10 then Char.ofNat (48 + n) else Char.ofNat (97 + n - 10)

/-- Numeric value of a hex digit character. -/
def hexVal (c : Char) : Nat :=
  if 97 ≤ c.toNat then c.toNat - 97 + 10 else c.toNat - 48

/-- Six-hex-digit encoding of a code point. -/
def hex6 (n : Nat) : List Char :=
  [hexDigit (n / 1048576 % 16), hexDigit (n / 65536 % 16),
   hexDigit (n / 4096 % 16), hexDigit (n / 256 % 16),
   hexDigit (n / 16 % 16), hexDigit (n % 16)]

/-- Percent-escape one character. -/
def escapeChar (c : Char) : List Char :=
  if safeChar c then [c] else '%' :: hex6 c.toNat

/-- Percent-escape a character list. -/
def escapeChars (cs : List Char) : List Char :=
  (cs.map escapeChar).flatten

/-- Percent-escape a string (the model of `qs.escape`). -/
def qsEscape (s : String) : String :=
  ⟨escapeChars s.data⟩

/-- Inverse of `escapeChars`: decode `%` + six hex digits, pass other
characters through. -/
def unescapeChars : List Char → List Char
  | '%' :: c1 :: c2 :: c3 :: c4 :: c5 :: c6 :: rest =>
    Char.ofNat (((((hexVal c1 * 16 + hexVal c2) * 16 + hexVal c3) * 16 +
      hexVal c4) * 16 + hexVal c5) * 16 + hexVal c6) :: unescapeChars rest
  | c :: rest => c :: unescapeChars rest
  | [] => []

/-! ### The query encoder (`attrsToQuery`) -/

/-- Built-in query parameters the encoder never copies from user attributes
(`ignoreList` in the source). -/
def ignoreList : List String := ["id", "index", "src", "type", "lang"]

/-- The `for (const name in attrs)` loop of `attrsToQuery`: each
non-reserved attribute becomes `&key` (falsy value) or `&key=value`,
key and value percent-escaped. -/
def attrQueryMain : List (String × AttrVal) → String
  | [] => ""
  | (n, v) :: rest =>
    (if ignoreList.contains n then ""
     else "&" ++ qsEscape n ++
       (if valTruthy v then "=" ++ qsEscape (valString v) else "")) ++
    attrQueryMain rest

/-- `attrsToQuery(attrs, langFallback?, forceLangFallback = false)` from the
source: the attribute loop followed by the conditional `&lang.<x>` suffix. -/
def attrsToQuery (attrs : List (String × AttrVal)) (langFallback : Option String)
    (forceLangFallback : Bool) : String :=
  let query := attrQueryMain attrs
  if optStrTruthy langFallback || optValTruthy (lookupAttr "lang" attrs) then
    query ++
      (match lookupAttr "lang" attrs with
       | some lv =>
         if forceLangFallback then "&lang." ++ jsTemplateStr langFallback
         else "&lang." ++ valString lv
       | none => "&lang." ++ jsTemplateStr langFallback)
  else query

/-! ### A query parser

No parser of virtual-address queries exists in the given sources.
Modelled from the spec: the virtual-address grammar of §6
(`&<urlencoded key[=value]>*`) together with §4.3 rule 2, which says a
bare key denotes a boolean-present value. -/

/-- Split a character list at every `&`. -/
def splitAmp : List Char → List (List Char)
  | [] => [[]]
  | c :: rest =>
    if c = '&' then [] :: splitAmp rest
    else
      match splitAmp rest with
      | [] => [[c]]
      | h :: t => (c :: h) :: t

/-- Parse one `key[=value]` segment: a bare key is boolean-present, a
`key=value` pair is a string value; both sides are unescaped. -/
def parsePart (cs : List Char) : String × AttrVal :=
  let k := cs.takeWhile (fun c => c != '=')
  match cs.dropWhile (fun c => c != '=') with
  | '=' :: v => (⟨unescapeChars k⟩, .str ⟨unescapeChars v⟩)
  | _ => (⟨unescapeChars k⟩, .boolT)

/-- Parse a query string back into an attribute map (empty segments,
such as the one before a leading `&`, are skipped). -/
def parseQueryChars (cs : List Char) : List (String × AttrVal) :=
  ((splitAmp cs).filter (fun p => !p.isEmpty)).map parsePart

/-- String-level query parser. -/
def parseQuery (s : String) : List (String × AttrVal) :=
  parseQueryChars s.data


/-! ### Data model (`SFCDescriptor` and its blocks, from `@vue/compiler-sfc`) -/

/-- A plain SFC block: an optional external source reference and its
attribute map (content is irrelevant to the routing logic). -/
structure SFCBlock where
  src : Option String := none
  attrs : List (String × AttrVal) := []
deriving DecidableEq, Repr

/-- A style section: additionally carries the `scoped` flag and the
`module` flag (`true` or a custom export name). -/
structure SFCStyleBlock where
  src : Option String := none
  attrs : List (String × AttrVal) := []
  «scoped» : Bool := false
  module : Option AttrVal := none
deriving DecidableEq, Repr

/-- A custom block: carries its block type used for filtering. -/
structure SFCCustomBlock where
  type : String
  src : Option String := none
  attrs : List (String × AttrVal) := []
deriving DecidableEq, Repr

/-- The parsed structured document. `scriptCompiled` is the slot the
transform fills via the external `compileScript`. -/
structure SFCDescriptor where
  script : Option SFCBlock := none
  scriptSetup : Option SFCBlock := none
  template : Option SFCBlock := none
  styles : List SFCStyleBlock := []
  customBlocks : List SFCCustomBlock := []
  scriptCompiled : Option SFCBlock := none
deriving DecidableEq, Repr

/-- One structural diagnostic of the external parser. -/
structure SFCError where
  message : String
  pos : Nat
deriving DecidableEq, Repr

/-- Result of the external `parse`. -/
structure ParseResult where
  descriptor : SFCDescriptor
  errors : List SFCError
deriving Repr

/-! ### JSON string literals (`JSON.stringify` on strings) -/

/-- Escape one character for a JSON string literal. -/
def jsonEscapeChar (c : Char) : List Char :=
  if c = '"' then ['\\', '"']
  else if c = '\\' then ['\\', '\\']
  else if c = '\n' then ['\\', 'n']
  else if c = '\r' then ['\\', 'r']
  else if c = '\t' then ['\\', 't']
  else if c = '\x08' then ['\\', 'b']
  else if c = '\x0c' then ['\\', 'f']
  else if c.toNat < 32 then
    ['\\', 'u', '0', '0', hexDigit (c.toNat / 16), hexDigit (c.toNat % 16)]
  else [c]

/-- `JSON.stringify` applied to a string. -/
def jsonStringify (s : String) : String :=
  ⟨'"' :: (s.data.map jsonEscapeChar).flatten ++ ['"']⟩

/-! ### Removing the module flag from a query

`attrsQuery.replace(/&module(=true|=[^&]+)?/, '')` — JavaScript `replace`
with a non-global regex removes the first match; the alternation prefers
`=true` over `=[^&]+`, and the group is optional. -/

/-- Remove the first `&module`, `&module=true` or `&module=<value>` from a
character list, following the regex's leftmost-alternative semantics. -/
def removeModuleQueryAux : List Char → List Char
  | '&' :: 'm' :: 'o' :: 'd' :: 'u' :: 'l' :: 'e' :: rest =>
    (match rest with
     | '=' :: 't' :: 'r' :: 'u' :: 'e' :: t2 => t2
     | '=' :: t =>
       if (t.takeWhile (fun c => c != '&')).isEmpty then '=' :: t
       else t.dropWhile (fun c => c != '&')
     | _ => rest)
  | c :: cs => c :: removeModuleQueryAux cs
  | [] => []

/-- String-level wrapper for the `&module` removal. -/
def removeModuleQuery (s : String) : String :=
  ⟨removeModuleQueryAux s.data⟩

/-! ### Section generators -/

/-- The virtual address of the template section (`src + query` before
`JSON.stringify`, the `templateRequest` of the source). -/
def templateRequestStr (t : SFCBlock) (resourcePath id : String) : String :=
  let src := jsOrStr t.src resourcePath
  let idQuery := "&id=" ++ id
  let srcQuery := if optStrTruthy t.src then "&src" else ""
  let attrsQuery := attrsToQuery t.attrs (some "js") true
  let query := "?vue&type=template" ++ idQuery ++ srcQuery ++ attrsQuery
  src ++ query

/-- `genTemplateCode`: an import of the render function from the template's
virtual address, or (when the descriptor has no template) the default
no-op binding. -/
def genTemplateCode (descriptor : SFCDescriptor) (resourcePath id : String)
    (isServer : Bool) : String :=
  let renderFnName := if isServer then "ssrRender" else "render"
  match descriptor.template with
  | some t =>
    "import \x7b " ++ renderFnName ++ " \x7d from " ++
      jsonStringify (templateRequestStr t resourcePath id)
  | none => "const " ++ renderFnName ++ " = () => \x7b\x7d"

/-- The virtual address of the script section (`src + query`). -/
def scriptRequestStr (script : SFCBlock) (resourcePath : String) : String :=
  let src := jsOrStr script.src resourcePath
  let attrsQuery := attrsToQuery script.attrs (some "js") false
  let srcQuery := if optStrTruthy script.src then "&src" else ""
  let query := "?vue&type=script" ++ srcQuery ++ attrsQuery
  src ++ query

/-- `genScriptCode`: runs the external `compileScript` when available, then
it imports the (compiled or plain) script block, re-exporting its named
exports; without a script block it emits the empty placeholder object.
The external compiler is a parameter closing over the pass-through
template-compiler options. -/
def genScriptCode
    (compileScriptFn : Option (SFCDescriptor → String → Bool → Bool → SFCBlock))
    (descriptor : SFCDescriptor) (resourcePath id : String)
    (isProd isServer : Bool) : String :=
  if descriptor.script.isSome || descriptor.scriptSetup.isSome then
    let scriptCompiled :=
      match compileScriptFn with
      | some f => some (f descriptor id isProd (!isServer))
      | none => descriptor.scriptCompiled
    match scriptCompiled <|> descriptor.script with
    | some script =>
      let scriptRequest := jsonStringify (scriptRequestStr script resourcePath)
      "import script from " ++ scriptRequest ++ "\n" ++
        "export * from " ++ scriptRequest
    | none => "const script = \x7b\x7d"
  else "const script = \x7b\x7d"

/-- The with-module virtual address of style section `i`. -/
def styleRequestStr (style : SFCStyleBlock) (i : Nat)
    (resourcePath id : String) (preprocessStyles : Bool) : String :=
  let src := jsOrStr style.src resourcePath
  let attrsQuery := attrsToQuery style.attrs (some "css") preprocessStyles
  let idQuery := "&id=" ++ id
  let srcQuery := if optStrTruthy style.src then "&src" else ""
  let query := "?vue&type=style&index=" ++ toString i ++ srcQuery ++ idQuery
  src ++ query ++ attrsQuery

/-- The module-stripped virtual address of style section `i`. -/
def styleRequestNoModuleStr (style : SFCStyleBlock) (i : Nat)
    (resourcePath id : String) (preprocessStyles : Bool) : String :=
  let src := jsOrStr style.src resourcePath
  let attrsQuery := attrsToQuery style.attrs (some "css") preprocessStyles
  let attrsQueryWithoutModule := removeModuleQuery attrsQuery
  let idQuery := "&id=" ++ id
  let srcQuery := if optStrTruthy style.src then "&src" else ""
  let query := "?vue&type=style&index=" ++ toString i ++ srcQuery ++ idQuery
  src ++ query ++ attrsQueryWithoutModule

/-- `genCSSModulesCode`: import the stripped address for extraction, import
the `.js` export map, and assign it into the `cssModules` map under the
section's name (`"$style"` for a boolean flag). -/
def genCSSModulesCode (id : String) (index : Nat)
    (request requestWithoutModule : String) (moduleName : AttrVal) : String :=
  let styleVar := "style" ++ toString index
  let code :=
    "\nimport " ++ jsonStringify requestWithoutModule ++
    "\nimport " ++ styleVar ++ " from " ++ jsonStringify (request ++ ".js")
  let name := match moduleName with | .str s => s | .boolT => "$style"
  code ++ "\ncssModules[\"" ++ name ++ "\"] = " ++ styleVar

/-- The indexed loop of `genStyleCode`, threading the `hasCSSModules`
flag that guards the one-time `cssModules` alias line. -/
def genStyleItems (resourcePath id : String) (preprocessStyles : Bool) :
    Nat → Bool → List SFCStyleBlock → String
  | _, _, [] => ""
  | i, hasCSSModules, style :: rest =>
    let styleRequest := styleRequestStr style i resourcePath id preprocessStyles
    let styleRequestWithoutModule :=
      styleRequestNoModuleStr style i resourcePath id preprocessStyles
    match style.module with
    | some m =>
      if valTruthy m then
        (if !hasCSSModules then "\nconst cssModules = script.__cssModules = \x7b\x7d"
         else "") ++
        genCSSModulesCode id i styleRequest styleRequestWithoutModule m ++
        genStyleItems resourcePath id preprocessStyles (i + 1) true rest
      else
        "\nimport " ++ jsonStringify styleRequest ++
        genStyleItems resourcePath id preprocessStyles (i + 1) hasCSSModules rest
    | none =>
      "\nimport " ++ jsonStringify styleRequest ++
      genStyleItems resourcePath id preprocessStyles (i + 1) hasCSSModules rest

/-- `genStyleCode`: one address per style section in parse order. -/
def genStyleCode (descriptor : SFCDescriptor) (resourcePath id : String)
    (preprocessStyles : Bool) : String :=
  genStyleItems resourcePath id preprocessStyles 0 false descriptor.styles

/-- The virtual address of custom block `index`. -/
def customBlockRequestStr (block : SFCCustomBlock) (index : Nat)
    (resourcePath : String) : String :=
  let src := jsOrStr block.src resourcePath
  let attrsQuery := attrsToQuery block.attrs (some block.type) false
  let srcQuery := if optStrTruthy block.src then "&src" else ""
  let query := "?vue&type=" ++ block.type ++ "&index=" ++ toString index ++
    srcQuery ++ attrsQuery
  src ++ query

/-- The two output lines of one accepted custom block: the import and the
call-if-callable wiring. -/
def customBlockCode (block : SFCCustomBlock) (index : Nat)
    (resourcePath : String) : String :=
  "import block" ++ toString index ++ " from " ++
    jsonStringify (customBlockRequestStr block index resourcePath) ++ "\n" ++
  "if (typeof block" ++ toString index ++
    " === \u0027function\u0027) block" ++ toString index ++ "(script)\n"

/-- The indexed loop of `getCustomBlock`: the index counts every block in
parse order, the filter only suppresses the emitted text. -/
def getCustomBlockItems (resourcePath : String) (filter : String → Bool) :
    Nat → List SFCCustomBlock → String
  | _, [] => ""
  | index, block :: rest =>
    (if filter block.type then customBlockCode block index resourcePath else "") ++
    getCustomBlockItems resourcePath filter (index + 1) rest

/-- `getCustomBlock`: import-and-invoke wiring for every custom block whose
type passes the filter. -/
def getCustomBlock (descriptor : SFCDescriptor) (resourcePath : String)
    (filter : String → Bool) : String :=
  getCustomBlockItems resourcePath filter 0 descriptor.customBlocks


/-! ### Path normalization and the scope id -/

/-- The `^(\.\.[\/\\])+` strip: drop every leading `../` or `..\`. -/
def stripParentEscapes : List Char → List Char
  | '.' :: '.' :: c :: rest =>
    if c = '/' || c = '\\' then stripParentEscapes rest
    else '.' :: '.' :: c :: rest
  | cs => cs

/-- The `\\ → /` separator normalization. -/
def backslashToSlash (cs : List Char) : List Char :=
  cs.map (fun c => if c = '\\' then '/' else c)

/-- `shortFilePath`: the relative path (relativization itself is node's
`path.relative`, passed in as a parameter) with parent escapes stripped
and separators normalized. -/
def shortFilePathOf (pathRelative : String → String → String)
    (sourceRoot resourcePath : String) : String :=
  ⟨backslashToSlash (stripParentEscapes (pathRelative sourceRoot resourcePath).data)⟩

/-- The text the scope id hashes: path plus newline plus raw content in
production (content-sensitive) mode, the path alone otherwise. -/
def scopeInput (shortFilePath code : String) (isProduction : Bool) : String :=
  if isProduction then shortFilePath ++ "\n" ++ code else shortFilePath

/-- The scope id: the external hash applied to `scopeInput`. -/
def scopeIdOf (hashFn : String → String) (shortFilePath code : String)
    (isProduction : Bool) : String :=
  hashFn (scopeInput shortFilePath code isProduction)

/-- `path.basename` on an already-normalized path: the part after the last
separator. -/
def baseName (s : String) : String :=
  ⟨(s.data.reverse.takeWhile (fun c => c != '/')).reverse⟩

/-! ### Cache, diagnostics and the transform entry point -/

/-- The descriptor cache, §4.1: a mapping from resource identity to the
most recently parsed document. -/
def DescriptorCache : Type := String → Option SFCDescriptor

/-- Modelled from the spec: `setDescriptor` of `utils/descriptorCache`
(not among the given sources) — `set(resourceId, document)` unconditionally
overwrites the entry for that identity and touches no other key (§4.1). -/
def setDescriptor (resourcePath : String) (descriptor : SFCDescriptor)
    (cache : DescriptorCache) : DescriptorCache :=
  fun k => if k = resourcePath then some descriptor else cache k

/-- A diagnostic as surfaced to the host pipeline. -/
structure RollupError where
  id : String
  message : String
  pos : Nat
deriving DecidableEq, Repr

/-- Modelled from the spec: `createRollupError` of `utils/error` (not among
the given sources) — pairs a parser diagnostic with the resource identity
and keeps its position (§4.5 failure mode, §7a). -/
def createRollupError (resourcePath : String) (e : SFCError) : RollupError :=
  ⟨resourcePath, e.message, e.pos⟩

/-- Build options relevant to this transform.  Modelled from the spec:
`Options` lives in the package index, not among the given sources; the
fields used here are the style-preprocessing flag and the
expose-filename-in-production flag (§6). -/
structure Options where
  preprocessStyles : Bool := false
  exposeFilename : Bool := false

/-- The module text plus source-map placeholder returned on success. -/
structure ModuleOutput where
  code : String
  mapMappings : String
deriving DecidableEq, Repr

/-- Everything observable about one transform invocation: the updated
cache, the diagnostics reported to the plugin context, and the returned
output (`none` models the `return null`). -/
structure TransformResult where
  cache : DescriptorCache
  reported : List RollupError
  result : Option ModuleOutput

/-- `transformSFCEntry`.  External collaborators are parameters: `parse`
and `compileScriptFn` from `@vue/compiler-sfc`, `pathRelative` for node's
`path.relative`, `hashFn` for `hash-sum`.  The plugin context's `error`
sink becomes the `reported` list and the process-wide descriptor cache is
passed and returned explicitly. -/
def transformSFCEntry (parse : String → ParseResult)
    (hashFn : String → String) (pathRelative : String → String → String)
    (compileScriptFn : Option (SFCDescriptor → String → Bool → Bool → SFCBlock))
    (code resourcePath : String) (options : Options) (sourceRoot : String)
    (isProduction isServer : Bool) (filterCustomBlock : String → Bool)
    (cache : DescriptorCache) : TransformResult :=
  let pr := parse code
  let descriptor := pr.descriptor
  let cache2 := setDescriptor resourcePath descriptor cache
  match pr.errors with
  | e :: errs =>
    { cache := cache2
      reported := (e :: errs).map (createRollupError resourcePath)
      result := none }
  | [] =>
    let shortFilePath := shortFilePathOf pathRelative sourceRoot resourcePath
    let scopeId := scopeIdOf hashFn shortFilePath code isProduction
    let hasScoped := descriptor.styles.any (fun s => s.«scoped»)
    let hasTemplateImport :=
      descriptor.template.isSome && (isServer || descriptor.scriptSetup.isNone)
    let templateImport :=
      if hasTemplateImport then genTemplateCode descriptor resourcePath scopeId isServer
      else ""
    let renderReplace :=
      if hasTemplateImport then
        if isServer then "script.ssrRender = ssrRender" else "script.render = render"
      else ""
    let scriptImport :=
      genScriptCode compileScriptFn descriptor resourcePath scopeId isProduction isServer
    let stylesCode := genStyleCode descriptor resourcePath scopeId options.preprocessStyles
    let customBlocksCode := getCustomBlock descriptor resourcePath filterCustomBlock
    let output :=
      [scriptImport, templateImport, stylesCode, customBlocksCode, renderReplace] ++
      (if hasScoped then
        ["script.__scopeId = " ++ jsonStringify ("data-v-" ++ scopeId)] else []) ++
      (if !isProduction then ["script.__file = " ++ jsonStringify shortFilePath]
       else if options.exposeFilename then
        ["script.__file = " ++ jsonStringify (baseName shortFilePath)]
       else []) ++
      ["export default script"]
    { cache := cache2
      reported := []
      result := some { code := String.intercalate "\n" output, mapMappings := "" } }

/-! ### String helpers used by the claim statements -/

/-- Boolean substring test on character lists. -/
def listInfixB (pat : List Char) : List Char → Bool
  | [] => pat.isEmpty
  | c :: rest => pat.isPrefixOf (c :: rest) || listInfixB pat rest

/-- Boolean substring test. -/
def strInfixB (pat s : String) : Bool :=
  listInfixB pat.data s.data

/-- Boolean emptiness test on the character data. -/
def strIsEmptyB (s : String) : Bool :=
  s.data.isEmpty

/-- Number of (possibly overlapping) occurrences of a pattern. -/
def countOccur (pat : List Char) : List Char → Nat
  | [] => if pat.isEmpty then 1 else 0
  | c :: rest =>
    (if pat.isPrefixOf (c :: rest) then 1 else 0) + countOccur pat rest

/-- Number of occurrences of `pat` inside `s`. -/
def countSubstr (pat s : String) : Nat :=
  countOccur pat.data s.data

/-- Concatenation of a list of strings (for restating accumulator loops). -/
def strConcat (l : List String) : String :=
  l.foldr (fun a b => a ++ b) ""

/-- The template-import part of the assembled output: the gate
`descriptor.template && (isServer || !descriptor.scriptSetup)` applied to
`genTemplateCode`. -/
def templateImportPart (descriptor : SFCDescriptor) (resourcePath id : String)
    (isServer : Bool) : String :=
  if descriptor.template.isSome && (isServer || descriptor.scriptSetup.isNone) then
    genTemplateCode descriptor resourcePath id isServer
  else ""

/-- The render-rebinding part of the assembled output. -/
def renderReplacePart (descriptor : SFCDescriptor) (isServer : Bool) : String :=
  if descriptor.template.isSome && (isServer || descriptor.scriptSetup.isNone) then
    if isServer then "script.ssrRender = ssrRender" else "script.render = render"
  else ""


/-! ### Concrete example documents and transform runs -/

/-- Descriptor of a document with a template and a script-setup variant. -/
def exSetupDoc : SFCDescriptor :=
  { scriptSetup := some {}, template := some {} }

/-- Descriptor of the §8 example document: two style sections, the second
a CSS module named `classes`. -/
def exStyleDoc : SFCDescriptor :=
  { styles := [{},
      { attrs := [("module", .str "classes")], module := some (.str "classes") }] }

/-- Descriptor of a document with only a plain script section. -/
def exScriptDoc : SFCDescriptor :=
  { script := some {} }

/-- Descriptor of a document with two custom blocks. -/
def exCustomDoc : SFCDescriptor :=
  { customBlocks := [{ type := "i18n" }, { type := "docs" }] }

/-- The empty descriptor cache. -/
def emptyCache : DescriptorCache := fun _ => none

/-- A transform run on a stub parse result: external parser returns the
given descriptor, the hash stub returns `"hid"`, relativization is the
identity, no script compiler, production mode, all custom blocks pass. -/
def exTransform (d : SFCDescriptor) (isServer : Bool) : TransformResult :=
  transformSFCEntry (fun _ => ⟨d, []⟩) (fun _ => "hid") (fun _ p => p) none
    "CODE" "/proj/src/App.vue" {} "/proj" true isServer (fun _ => true) emptyCache

/-- The module text of a transform result (empty when the transform
returned `null`). -/
def outputCodeOf (r : TransformResult) : String :=
  match r.result with
  | some o => o.code
  | none => ""


/-! ### Lemmas: the percent escape is invertible and produces no
separator characters -/

theorem char_toNat_lt (c : Char) : c.toNat < 1114112 := by
  have h := c.valid
  unfold UInt32.isValidChar Nat.isValidChar at h
  rcases h with h | ⟨_, h2⟩
  · exact Nat.lt_trans h (by norm_num)
  · exact h2

theorem hexVal_hexDigit : ∀ k, k < 16 → hexVal (hexDigit k) = k := by decide

theorem hexDigit_ne_amp_eq : ∀ k, k < 16 →
    hexDigit k ≠ '&' ∧ hexDigit k ≠ '=' ∧ hexDigit k ≠ '%' := by decide

theorem safeChar_ne (c : Char) (h : safeChar c = true) :
    c ≠ '&' ∧ c ≠ '=' ∧ c ≠ '%' := by
  refine ⟨?_, ?_, ?_⟩ <;> rintro rfl <;> simp [safeChar] at h

theorem unescapeChars_cons_ne (c : Char) (rest : List Char) (h : c ≠ '%') :
    unescapeChars (c :: rest) = c :: unescapeChars rest := by
  rw [unescapeChars.eq_def]
  split
  · rename_i heq
    injection heq with h1 _
    exact absurd h1 h
  · rename_i heq
    injection heq with h1 h2
    rw [h1, h2]
  · rename_i heq
    exact absurd heq (by simp)

theorem unescape_escapeChar (c : Char) (rest : List Char) :
    unescapeChars (escapeChar c ++ rest) = c :: unescapeChars rest := by
  by_cases h : safeChar c = true
  · rw [escapeChar, if_pos h]
    exact unescapeChars_cons_ne c rest (safeChar_ne c h).2.2
  · rw [escapeChar, if_neg h, hex6]
    show unescapeChars ('%' :: _ :: _ :: _ :: _ :: _ :: _ :: rest) = _
    rw [unescapeChars]
    have hlt := char_toNat_lt c
    rw [hexVal_hexDigit _ (Nat.mod_lt _ (by norm_num)),
        hexVal_hexDigit _ (Nat.mod_lt _ (by norm_num)),
        hexVal_hexDigit _ (Nat.mod_lt _ (by norm_num)),
        hexVal_hexDigit _ (Nat.mod_lt _ (by norm_num)),
        hexVal_hexDigit _ (Nat.mod_lt _ (by norm_num)),
        hexVal_hexDigit _ (Nat.mod_lt _ (by norm_num))]
    have : ((((c.toNat / 1048576 % 16 * 16 + c.toNat / 65536 % 16) * 16 +
        c.toNat / 4096 % 16) * 16 + c.toNat / 256 % 16) * 16 +
        c.toNat / 16 % 16) * 16 + c.toNat % 16 = c.toNat := by omega
    rw [this, Char.ofNat_toNat]

theorem unescape_escapeChars (xs rest : List Char) :
    unescapeChars (escapeChars xs ++ rest) = xs ++ unescapeChars rest := by
  induction xs with
  | nil => simp [escapeChars]
  | cons c t ih =>
    have : escapeChars (c :: t) = escapeChar c ++ escapeChars t := by
      simp [escapeChars]
    rw [this, List.append_assoc, unescape_escapeChar, ih]
    rfl

theorem mem_escapeChars_ne (xs : List Char) (c : Char) (h : c ∈ escapeChars xs) :
    c ≠ '&' ∧ c ≠ '=' := by
  induction xs with
  | nil => simp [escapeChars] at h
  | cons a t ih =>
    have hsplit : escapeChars (a :: t) = escapeChar a ++ escapeChars t := by
      simp [escapeChars]
    rw [hsplit, List.mem_append] at h
    rcases h with h | h
    · by_cases hs : safeChar a = true
      · rw [escapeChar, if_pos hs] at h
        simp at h
        rw [h]
        exact ⟨(safeChar_ne a hs).1, (safeChar_ne a hs).2.1⟩
      · rw [escapeChar, if_neg hs, hex6] at h
        simp at h
        rcases h with h | h | h | h | h | h | h <;> rw [h]
        · exact ⟨by decide, by decide⟩
        all_goals exact ⟨(hexDigit_ne_amp_eq _ (Nat.mod_lt _ (by norm_num))).1,
            (hexDigit_ne_amp_eq _ (Nat.mod_lt _ (by norm_num))).2.1⟩
    · exact ih h

/-! ### Lemmas: splitting and segment parsing -/

theorem splitAmp_no_amp (xs : List Char) (h : '&' ∉ xs) : splitAmp xs = [xs] := by
  induction xs with
  | nil => rfl
  | cons c t ih =>
    have hc : ¬ c = '&' := fun e => h (e ▸ List.mem_cons_self c t)
    rw [splitAmp, if_neg hc, ih (fun m => h (List.mem_cons_of_mem c m))]

theorem splitAmp_append_amp (xs ys : List Char) (h : '&' ∉ xs) :
    splitAmp (xs ++ '&' :: ys) = xs :: splitAmp ys := by
  induction xs with
  | nil => rw [List.nil_append, splitAmp, if_pos rfl]
  | cons c t ih =>
    have hc : ¬ c = '&' := fun e => h (e ▸ List.mem_cons_self c t)
    rw [List.cons_append, splitAmp, if_neg hc,
      ih (fun m => h (List.mem_cons_of_mem c m))]

theorem takeWhile_ne_append (k v : List Char) (h : '=' ∉ k) :
    (k ++ '=' :: v).takeWhile (fun c => c != '=') = k := by
  induction k with
  | nil => simp [List.takeWhile]
  | cons c t ih =>
    have hc : ¬ c = '=' := fun e => h (e ▸ List.mem_cons_self c t)
    simp only [List.cons_append, List.takeWhile_cons]
    rw [if_pos (by simp [hc]), ih (fun m => h (List.mem_cons_of_mem c m))]

theorem dropWhile_ne_append (k v : List Char) (h : '=' ∉ k) :
    (k ++ '=' :: v).dropWhile (fun c => c != '=') = '=' :: v := by
  induction k with
  | nil => simp [List.dropWhile]
  | cons c t ih =>
    have hc : ¬ c = '=' := fun e => h (e ▸ List.mem_cons_self c t)
    simp only [List.cons_append, List.dropWhile_cons]
    rw [if_pos (by simp [hc]), ih (fun m => h (List.mem_cons_of_mem c m))]

/-- Parsing one `escaped-key = escaped-value` segment recovers the pair. -/
theorem parsePart_seg (n s : String) :
    parsePart (escapeChars n.data ++ '=' :: escapeChars s.data) =
      (n, .str s) := by
  have hk : '=' ∉ escapeChars n.data :=
    fun m => (mem_escapeChars_ne n.data '=' m).2 rfl
  have hv : ∀ r, unescapeChars (escapeChars r) = r := by
    intro r
    have h0 := unescape_escapeChars r []
    simpa [show unescapeChars ([] : List Char) = [] from rfl] using h0
  rw [parsePart]
  rw [takeWhile_ne_append _ _ hk, dropWhile_ne_append _ _ hk]
  show (String.mk (unescapeChars (escapeChars n.data)),
    AttrVal.str (String.mk (unescapeChars (escapeChars s.data)))) = _
  rw [hv n.data, hv s.data]

theorem parseQueryChars_amp_cons (z : List Char) :
    parseQueryChars ('&' :: z) = parseQueryChars z := by
  rw [parseQueryChars, splitAmp, if_pos rfl]
  simp [parseQueryChars]

theorem parseQueryChars_nil : parseQueryChars [] = [] := rfl

theorem parse_seg_append (seg tail : List Char) (hne : seg ≠ [])
    (hamp : '&' ∉ seg) (hshape : tail = [] ∨ ∃ t, tail = '&' :: t) :
    parseQueryChars (seg ++ tail) = parsePart seg :: parseQueryChars tail := by
  rcases hshape with rfl | ⟨t, rfl⟩
  · rw [List.append_nil, parseQueryChars, splitAmp_no_amp seg hamp]
    simp [hne, parseQueryChars_nil]
  · rw [parseQueryChars, splitAmp_append_amp seg t hamp, parseQueryChars_amp_cons]
    simp [hne, parseQueryChars]

theorem attrQueryMain_shape (attrs : List (String × AttrVal)) :
    (attrQueryMain attrs).data = [] ∨
      ∃ t, (attrQueryMain attrs).data = '&' :: t := by
  induction attrs with
  | nil => exact Or.inl rfl
  | cons p rest ih =>
    obtain ⟨n, v⟩ := p
    by_cases hc : ignoreList.contains n = true
    · rw [attrQueryMain, if_pos hc]
      exact ih
    · rw [attrQueryMain, if_neg hc]
      by_cases ht : valTruthy v = true
      · rw [if_pos ht]
        exact Or.inr ⟨_, rfl⟩
      · rw [if_neg ht]
        exact Or.inr ⟨_, rfl⟩

/-- Parsing the encoder's attribute loop recovers exactly the
non-reserved attributes, provided every value is a non-empty string. -/
theorem parse_attrQueryMain (attrs : List (String × AttrVal))
    (hv : attrs.all (fun p =>
      match p.2 with | .str s => !s.isEmpty | .boolT => false) = true) :
    parseQueryChars (attrQueryMain attrs).data =
      attrs.filter (fun p => !(ignoreList.contains p.1)) := by
  induction attrs with
  | nil => rfl
  | cons p rest ih =>
    rw [List.all_cons, Bool.and_eq_true] at hv
    obtain ⟨n, v⟩ := p
    obtain ⟨hv1, hv2⟩ := hv
    match v, hv1 with
    | .str s, hv1 =>
      have hs : valTruthy (.str s) = true := hv1
      by_cases hc : ignoreList.contains n = true
      · rw [attrQueryMain, if_pos hc]
        have : ((("" : String)) ++ attrQueryMain rest).data =
            (attrQueryMain rest).data := rfl
        rw [this, ih hv2, List.filter_cons]
        have hmem : n ∈ ignoreList := List.mem_of_elem_eq_true hc
        simp [hmem]
      · have hdata : ((if ignoreList.contains n then ""
            else "&" ++ qsEscape n ++
              (if valTruthy (AttrVal.str s) then
                "=" ++ qsEscape (valString (AttrVal.str s)) else "")) ++
            attrQueryMain rest).data =
            '&' :: ((escapeChars n.data ++ '=' :: escapeChars s.data) ++
              (attrQueryMain rest).data) := by
          rw [if_neg hc, if_pos hs]
          rfl
        rw [attrQueryMain, hdata, parseQueryChars_amp_cons]
        have hseg_amp : '&' ∉ escapeChars n.data ++ '=' :: escapeChars s.data := by
          intro m
          rw [List.mem_append] at m
          rcases m with m | m
          · exact (mem_escapeChars_ne n.data '&' m).1 rfl
          · rcases List.mem_cons.mp m with e | m
            · exact absurd e (by decide)
            · exact (mem_escapeChars_ne s.data '&' m).1 rfl
        have hseg_ne : escapeChars n.data ++ '=' :: escapeChars s.data ≠ [] := by
          simp
        rw [parse_seg_append _ _ hseg_ne hseg_amp (attrQueryMain_shape rest),
          parsePart_seg, ih hv2, List.filter_cons]
        have hmem : n ∉ ignoreList := fun m => hc (List.elem_eq_true_of_mem m)
        simp [hmem]

theorem lookupAttr_none_of_no_key (k : String) (attrs : List (String × AttrVal))
    (h : (attrs.map Prod.fst).contains k = false) : lookupAttr k attrs = none := by
  rw [lookupAttr, List.find?_eq_none.mpr]
  · rfl
  · intro x hx hbeq
    have hxk : x.1 = k := by simpa using hbeq
    have : k ∈ attrs.map Prod.fst :=
      hxk ▸ List.mem_map_of_mem Prod.fst hx
    exact absurd ((List.elem_eq_true_of_mem this).symm.trans h) (by simp)

theorem attrsToQuery_no_lang (attrs : List (String × AttrVal)) (force : Bool)
    (h : lookupAttr "lang" attrs = none) :
    attrsToQuery attrs none force = attrQueryMain attrs := by
  rw [attrsToQuery, h]
  simp [optStrTruthy, optValTruthy]

/-! ### Spec-side formulations used by the claims -/

/-- The CSS-modules export name of a style section: the string module
name, or `$style` when the module flag is boolean. -/
def cssModuleName (m : AttrVal) : String :=
  match m with
  | .str s => s
  | .boolT => "$style"

/-- The (amended) condition under which a `&lang.` suffix is appended:
the fallback is a non-empty string or the map's `lang` value is truthy. -/
def langSuffixCond (attrs : List (String × AttrVal))
    (langFallback : Option String) : Bool :=
  optStrTruthy langFallback || optValTruthy (lookupAttr "lang" attrs)

/-- The suffix language `X` per §4.3 rule 3: the (stringified) forced
fallback when forcing and a `lang` key exists, else the map's own `lang`
value when the key exists, else the (stringified) fallback. -/
def langSuffixX (attrs : List (String × AttrVal)) (langFallback : Option String)
    (force : Bool) : String :=
  match lookupAttr "lang" attrs with
  | some lv => if force then jsTemplateStr langFallback else valString lv
  | none => jsTemplateStr langFallback

/-- The whole `&lang.<X>` suffix as the (amended) claim describes it. -/
def langSuffixSpec (attrs : List (String × AttrVal)) (langFallback : Option String)
    (force : Bool) : String :=
  if langSuffixCond attrs langFallback then
    "&lang." ++ langSuffixX attrs langFallback force
  else ""

theorem str_data_append (a b : String) : (a ++ b).data = a.data ++ b.data := rfl

theorem isPrefixOf_append_self (l b : List Char) : l.isPrefixOf (l ++ b) = true := by
  induction l with
  | nil => simp [List.isPrefixOf]
  | cons c t ih => simp [List.isPrefixOf, ih]

theorem listInfixB_self_append (pat b : List Char) :
    listInfixB pat (pat ++ b) = true := by
  cases pat with
  | nil =>
    cases b with
    | nil => rfl
    | cons c r => simp [listInfixB, List.isPrefixOf]
  | cons p pr =>
    rw [List.cons_append, listInfixB]
    rw [show ((p :: pr).isPrefixOf (p :: (pr ++ b))) = true from
      isPrefixOf_append_self (p :: pr) b]
    rfl

theorem listInfixB_of_parts (pat a b : List Char) :
    listInfixB pat (a ++ pat ++ b) = true := by
  induction a with
  | nil => rw [List.nil_append]; exact listInfixB_self_append pat b
  | cons c t ih =>
    rw [List.cons_append, List.cons_append, listInfixB, ih, Bool.or_true]

theorem strInfixB_parts (pat a b s : String)
    (h : s.data = a.data ++ pat.data ++ b.data) : strInfixB pat s = true := by
  rw [strInfixB, h]
  exact listInfixB_of_parts pat.data a.data b.data

/-! ### Claim theorems -/

/-- C3, counterexample: a boolean-present attribute encodes as `a=true`
(not as a bare key), so parsing the encoded query yields the string value
`"true"` instead of the boolean marker — the round-trip does not recover
the original map even though `a` is not reserved. -/
theorem C3_query_roundtrip_counterexample :
    parseQuery (attrsToQuery [("a", AttrVal.boolT)] none false) =
      [("a", AttrVal.str "true")] ∧
    List.filter (fun p => !(ignoreList.contains p.1)) [("a", AttrVal.boolT)] =
      [("a", AttrVal.boolT)] ∧
    decide (parseQuery (attrsToQuery [("a", AttrVal.boolT)] none false) =
      List.filter (fun p => !(ignoreList.contains p.1)) [("a", AttrVal.boolT)]) =
        false := by
  refine ⟨by decide, by decide, by decide⟩

/-- C3, amended: encoding an attribute map with unique keys whose values
are all non-empty strings and which has no `lang` key, with no fallback
language, then parsing the resulting query string, recovers exactly the
original map minus the reserved keys (order preserved). -/
theorem C3_query_roundtrip_amended (attrs : List (String × AttrVal)) (force : Bool)
    (hkeys : (attrs.map Prod.fst).Nodup)
    (hvals : attrs.all (fun p =>
      match p.2 with | .str s => !s.isEmpty | .boolT => false) = true)
    (hlang : (attrs.map Prod.fst).contains "lang" = false) :
    parseQuery (attrsToQuery attrs none force) =
      attrs.filter (fun p => !(ignoreList.contains p.1)) := by
  rw [attrsToQuery_no_lang attrs force (lookupAttr_none_of_no_key "lang" attrs hlang),
    parseQuery]
  exact parse_attrQueryMain attrs hvals

/-- C3, witness for the amended round-trip at a concrete map. -/
theorem C3_query_roundtrip_witness :
    ([("foo", AttrVal.str "bar"), ("id", AttrVal.str "x")].map
      (Prod.fst (α := String) (β := AttrVal))).Nodup ∧
    ([("foo", AttrVal.str "bar"), ("id", AttrVal.str "x")].all (fun p =>
      match p.2 with | .str s => !s.isEmpty | .boolT => false) = true) ∧
    (([("foo", AttrVal.str "bar"), ("id", AttrVal.str "x")].map
      (Prod.fst (α := String) (β := AttrVal))).contains "lang" = false) ∧
    parseQuery (attrsToQuery [("foo", AttrVal.str "bar"), ("id", AttrVal.str "x")]
      none false) = [("foo", AttrVal.str "bar")] := by
  refine ⟨by decide, by decide, by decide, ?_⟩
  exact (C3_query_roundtrip_amended
    [("foo", AttrVal.str "bar"), ("id", AttrVal.str "x")] false
    (by decide) (by decide) (by decide)).trans (by decide)

/-- C4, counterexample: with an empty attribute map and a supplied (but
empty) fallback language the encoder appends nothing at all, although the
claim requires a `&lang.<X>` suffix whenever a fallback language was
supplied; likewise a map that declares `lang` (with the empty value) gets
no suffix, although the claim requires one whenever the map declares
`lang`. -/
theorem C4_lang_suffix_counterexample :
    (some ("" : String)).isSome = true ∧
    attrsToQuery [] (some "") false = "" ∧
    strInfixB "&lang." (attrsToQuery [] (some "") false) = false ∧
    lookupAttr "lang" [("lang", AttrVal.str "")] = some (AttrVal.str "") ∧
    attrsToQuery [("lang", AttrVal.str "")] none false = "" ∧
    strInfixB "&lang."
      (attrsToQuery [("lang", AttrVal.str "")] none false) = false := by
  refine ⟨rfl, by decide, by decide, by decide, by decide, by decide⟩

/-- C4, amended: the encoder appends `&lang.<X>` exactly when the fallback
is a non-empty string or the map's `lang` value is truthy; `X` is the
stringified forced fallback when forcing and a `lang` key exists, else the
map's own (stringified) `lang` value when the key exists, else the
stringified fallback (`undefined` when absent). -/
theorem C4_lang_suffix_amended (attrs : List (String × AttrVal))
    (langFallback : Option String) (force : Bool) :
    attrsToQuery attrs langFallback force =
      attrQueryMain attrs ++ langSuffixSpec attrs langFallback force := by
  rw [attrsToQuery, langSuffixSpec, langSuffixCond, langSuffixX]
  by_cases h : (optStrTruthy langFallback ||
      optValTruthy (lookupAttr "lang" attrs)) = true
  · rw [if_pos h, if_pos h]
    cases hl : lookupAttr "lang" attrs with
    | some lv => cases force <;> rfl
    | none => rfl
  · rw [if_neg h, if_neg h, String.append_empty]

/-- C5: the scope token is the external hash of exactly the specified
input — path ++ newline ++ content in content-sensitive (production) mode,
the path alone otherwise; the production-mode input changes exactly when
the content changes, while the path-only input ignores the content. -/
theorem C5_scope_token (hashFn : String → String) (short code1 code2 : String) :
    scopeIdOf hashFn short code1 true = hashFn (short ++ "\n" ++ code1) ∧
    scopeIdOf hashFn short code1 false = hashFn short ∧
    (scopeInput short code1 true = scopeInput short code2 true ↔ code1 = code2) ∧
    scopeInput short code1 false = scopeInput short code2 false := by
  refine ⟨rfl, rfl, ?_, rfl⟩
  constructor
  · intro h
    have hd : (short ++ "\n" ++ code1).data = (short ++ "\n" ++ code2).data :=
      congrArg String.data h
    rw [str_data_append, str_data_append, str_data_append, str_data_append] at hd
    exact String.ext (List.append_cancel_left hd)
  · intro h
    rw [scopeInput, scopeInput, h]

/-- C1: the template import of the assembled output is non-empty exactly
when a template section exists and (server-rendering is active or no
script-setup variant is present); in particular the script-setup document
yields no `type=template` address without server rendering and exactly
one with it. -/
theorem C1_template_gating :
    (∀ (d : SFCDescriptor) (p i : String) (sv : Bool),
      strIsEmptyB (templateImportPart d p i sv) =
        !(d.template.isSome && (sv || d.scriptSetup.isNone))) ∧
    countSubstr "type=template" (outputCodeOf (exTransform exSetupDoc false)) = 0 ∧
    countSubstr "type=template" (outputCodeOf (exTransform exSetupDoc true)) = 1 := by
  refine ⟨?_, by decide, by decide⟩
  intro d p i sv
  cases hb : (d.template.isSome && (sv || d.scriptSetup.isNone)) with
  | true =>
    have ht : d.template.isSome = true := (Bool.and_eq_true _ _ |>.mp hb).1
    obtain ⟨t, hteq⟩ := Option.isSome_iff_exists.mp ht
    rw [templateImportPart, hb, if_pos rfl, genTemplateCode, hteq]
    cases sv <;> rfl
  | false =>
    rw [templateImportPart, hb, if_neg (by simp)]
    rfl

theorem genStyleItems_module_fragment (st : SFCStyleBlock) (m : AttrVal)
    (rest : List SFCStyleBlock) (i : Nat) (hasMods : Bool) (p id : String)
    (pre : Bool) (h1 : st.module = some m) (h2 : valTruthy m = true) :
    genStyleItems p id pre i hasMods (st :: rest) =
      (if hasMods then "" else "\nconst cssModules = script.__cssModules = \x7b\x7d") ++
      ("\nimport " ++ jsonStringify (styleRequestNoModuleStr st i p id pre) ++
       ("\nimport style" ++ toString i ++ " from ") ++
       jsonStringify (styleRequestStr st i p id pre ++ ".js") ++
       ("\ncssModules[\"" ++ cssModuleName m ++ "\"] = style" ++ toString i)) ++
      genStyleItems p id pre (i + 1) true rest := by
  rw [genStyleItems, h1]
  simp only []
  rw [if_pos h2]
  cases m with
  | str name =>
    cases hasMods <;>
      · apply String.ext
        simp [genCSSModulesCode, cssModuleName, str_data_append, List.append_assoc]
  | boolT =>
    cases hasMods <;>
      · apply String.ext
        simp [genCSSModulesCode, cssModuleName, str_data_append, List.append_assoc]

theorem escapeChar_ne_nil (c : Char) : escapeChar c ≠ [] := by
  rw [escapeChar]
  by_cases h : safeChar c = true
  · rw [if_pos h]; simp
  · rw [if_neg h]; simp

theorem escapeChars_ne_nil (s : String) (h : s ≠ "") : escapeChars s.data ≠ [] := by
  cases s with
  | mk l =>
    cases l with
    | nil => exact absurd rfl h
    | cons c t =>
      show escapeChars (c :: t) ≠ []
      have : escapeChars (c :: t) = escapeChar c ++ escapeChars t := by
        simp [escapeChars]
      rw [this]
      simp [escapeChar_ne_nil c]

theorem isPrefixOf_append_split (pat : List Char) : ∀ (k r : List Char),
    pat.isPrefixOf (k ++ r) = true →
    pat.isPrefixOf k = true ∨
      (k.length < pat.length ∧ (pat.drop k.length).isPrefixOf r = true ∧
        pat.drop k.length ≠ []) := by
  induction pat with
  | nil => intro k r _; exact Or.inl (by simp [List.isPrefixOf])
  | cons p pt ih =>
    intro k r h
    cases k with
    | nil =>
      refine Or.inr ⟨by simp, ?_, by simp⟩
      simpa using h
    | cons c kt =>
      rw [List.cons_append] at h
      simp only [List.isPrefixOf, Bool.and_eq_true] at h
      obtain ⟨hpc, hrest⟩ := h
      rcases ih kt r hrest with hl | ⟨h1, h2, h3⟩
      · exact Or.inl (by simp [List.isPrefixOf, hpc, hl])
      · exact Or.inr ⟨by simpa using h1, by simpa using h2, by simpa using h3⟩

theorem prefix_append_boundary_false (pat k r : List Char)
    (hk : pat.isPrefixOf k = false)
    (hpat : ∀ c ∈ pat, c ≠ '=' ∧ c ≠ '&')
    (hr : r = [] ∨ (∃ t, r = '=' :: t) ∨ (∃ t, r = '&' :: t)) :
    pat.isPrefixOf (k ++ r) = false := by
  cases hb : pat.isPrefixOf (k ++ r) with
  | false => rfl
  | true =>
    exfalso
    rcases isPrefixOf_append_split pat k r hb with hl | ⟨_, h2, h3⟩
    · rw [hl] at hk; exact absurd hk (by simp)
    · obtain ⟨c, dt, hd⟩ := List.exists_cons_of_ne_nil h3
      have hcmem : c ∈ pat := List.drop_subset _ _ (hd ▸ List.mem_cons_self c dt)
      rcases hr with rfl | ⟨t, rfl⟩ | ⟨t, rfl⟩
      · rw [hd] at h2; simp [List.isPrefixOf] at h2
      · rw [hd] at h2
        simp only [List.isPrefixOf, Bool.and_eq_true, beq_iff_eq] at h2
        exact (hpat c hcmem).1 h2.1
      · rw [hd] at h2
        simp only [List.isPrefixOf, Bool.and_eq_true, beq_iff_eq] at h2
        exact (hpat c hcmem).2 h2.1

theorem removeModuleQueryAux_cons_ne (c : Char) (cs : List Char)
    (h : ("&module".data).isPrefixOf (c :: cs) = false) :
    removeModuleQueryAux (c :: cs) = c :: removeModuleQueryAux cs := by
  rw [removeModuleQueryAux.eq_def]
  split
  · rename_i heq
    exfalso
    rw [show ("&module".data) = ['&', 'm', 'o', 'd', 'u', 'l', 'e'] from rfl] at h
    rw [heq] at h
    simp [List.isPrefixOf] at h
  · rename_i heq
    injection heq with e1 e2
    rw [e1, e2]
  · rename_i heq
    exact absurd heq (by simp)

theorem removeModuleQueryAux_skip_no_amp (w : List Char) (tail2 : List Char)
    (h : '&' ∉ w) :
    removeModuleQueryAux (w ++ tail2) = w ++ removeModuleQueryAux tail2 := by
  induction w with
  | nil => rfl
  | cons c wt ih =>
    have hc : c ≠ '&' := fun e => h (e ▸ List.mem_cons_self c wt)
    rw [List.cons_append,
      removeModuleQueryAux_cons_ne c (wt ++ tail2) (by
        rw [show ("&module".data) = ['&', 'm', 'o', 'd', 'u', 'l', 'e'] from rfl]
        simp [List.isPrefixOf]
        intro e
        exact absurd e.symm hc),
      ih (fun m => h (List.mem_cons_of_mem c m)), List.cons_append]

theorem str_append_assoc (a b c : String) : a ++ b ++ c = a ++ (b ++ c) := by
  apply String.ext
  simp [str_data_append, List.append_assoc]

theorem attrQueryMain_append (xs ys : List (String × AttrVal)) :
    attrQueryMain (xs ++ ys) = attrQueryMain xs ++ attrQueryMain ys := by
  induction xs with
  | nil => rfl
  | cons p t ih =>
    obtain ⟨n, v⟩ := p
    rw [List.cons_append, attrQueryMain, ih, attrQueryMain]
    exact (str_append_assoc _ _ _).symm

theorem lookupAttr_append_skip (k : String) (pre post : List (String × AttrVal))
    (a : String × AttrVal) (ha : (a.1 == k) = false) :
    lookupAttr k (pre ++ a :: post) = lookupAttr k (pre ++ post) := by
  rw [lookupAttr, lookupAttr]
  induction pre with
  | nil =>
    rw [List.nil_append, List.nil_append, List.find?_cons]
    simp [ha]
  | cons b t ih =>
    rw [List.cons_append, List.cons_append, List.find?_cons, List.find?_cons]
    by_cases hb : (b.1 == k) = true
    · simp [hb]
    · simp only [hb, Bool.false_eq_true, if_false, if_neg]
      exact ih

theorem aux_skip_attrQueryMain (rest : List Char)
    (hrest : rest = [] ∨ ∃ r1, rest = '&' :: r1) :
    ∀ (pre : List (String × AttrVal)),
    (∀ p ∈ pre, ("module".data).isPrefixOf (escapeChars p.1.data) = false) →
    removeModuleQueryAux ((attrQueryMain pre).data ++ rest) =
      (attrQueryMain pre).data ++ removeModuleQueryAux rest := by
  intro pre
  induction pre with
  | nil => intro _; rfl
  | cons a t ih =>
    intro hpre
    obtain ⟨n, v⟩ := a
    have hn : ("module".data).isPrefixOf (escapeChars n.data) = false :=
      hpre (n, v) (List.mem_cons_self _ _)
    have ht : ∀ p ∈ t, ("module".data).isPrefixOf (escapeChars p.1.data) = false :=
      fun p hp => hpre p (List.mem_cons_of_mem _ hp)
    by_cases hres : ignoreList.contains n = true
    · rw [attrQueryMain, if_pos hres]
      show removeModuleQueryAux (((("" : String)) ++ attrQueryMain t).data ++ rest) = _
      rw [show ((("" : String)) ++ attrQueryMain t) = attrQueryMain t from rfl]
      exact ih ht
    · have hshape2 : (attrQueryMain t).data ++ rest = [] ∨
          ∃ r2, (attrQueryMain t).data ++ rest = '&' :: r2 := by
        rcases attrQueryMain_shape t with hq | ⟨q, hq⟩
        · rw [hq, List.nil_append]
          exact hrest
        · rw [hq]
          exact Or.inr ⟨_, rfl⟩
      set w : List Char :=
        escapeChars n.data ++
          (if valTruthy v then '=' :: escapeChars (valString v).data else []) with hw
      have hseg : (attrQueryMain ((n, v) :: t)).data =
          '&' :: (w ++ (attrQueryMain t).data) := by
        rw [attrQueryMain, if_neg hres, hw]
        by_cases htr : valTruthy v = true
        · rw [if_pos htr, if_pos htr]
          rfl
        · rw [if_neg htr, if_neg htr, List.append_nil]
          simp [str_data_append, qsEscape]
      have hwdata : ∀ Z : List Char, (attrQueryMain ((n, v) :: t)).data ++ Z =
          '&' :: (w ++ ((attrQueryMain t).data ++ Z)) := by
        intro Z
        rw [hseg, List.cons_append, List.append_assoc]
      have hwamp : '&' ∉ w := by
        rw [hw]
        intro hm
        rcases List.mem_append.mp hm with hm | hm
        · exact (mem_escapeChars_ne n.data '&' hm).1 rfl
        · by_cases htr : valTruthy v = true
          · rw [if_pos htr] at hm
            rcases List.mem_cons.mp hm with e | hm
            · exact absurd e (by decide)
            · exact (mem_escapeChars_ne (valString v).data '&' hm).1 rfl
          · rw [if_neg htr] at hm
            simp at hm
      have hm2 : ("module".data).isPrefixOf
          (w ++ ((attrQueryMain t).data ++ rest)) = false := by
        rw [hw, List.append_assoc]
        apply prefix_append_boundary_false
        · exact hn
        · decide
        · by_cases htr : valTruthy v = true
          · rw [if_pos htr, List.cons_append]
            exact Or.inr (Or.inl ⟨_, rfl⟩)
          · rw [if_neg htr, List.nil_append]
            rcases hshape2 with h0 | ⟨r2, h0⟩
            · exact Or.inl h0
            · exact Or.inr (Or.inr ⟨_, h0⟩)
      have hnofire : ("&module".data).isPrefixOf
          ('&' :: (w ++ ((attrQueryMain t).data ++ rest))) = false := by
        rw [show ("&module".data) = '&' :: "module".data from rfl]
        simp only [List.isPrefixOf, hm2]
        simp
      rw [hwdata rest, removeModuleQueryAux_cons_ne _ _ hnofire,
        removeModuleQueryAux_skip_no_amp w _ hwamp, ih ht,
        hwdata (removeModuleQueryAux rest)]

theorem takeWhile_all_append (p : Char → Bool) (xs ys : List Char)
    (h : ∀ x ∈ xs, p x = true) :
    (xs ++ ys).takeWhile p = xs ++ ys.takeWhile p := by
  induction xs with
  | nil => rfl
  | cons c t ih =>
    rw [List.cons_append, List.takeWhile_cons,
      if_pos (h c (List.mem_cons_self c t)),
      ih (fun x hx => h x (List.mem_cons_of_mem c hx)), List.cons_append]

theorem dropWhile_all_append (p : Char → Bool) (xs ys : List Char)
    (h : ∀ x ∈ xs, p x = true) :
    (xs ++ ys).dropWhile p = ys.dropWhile p := by
  induction xs with
  | nil => rfl
  | cons c t ih =>
    rw [List.cons_append, List.dropWhile_cons,
      if_pos (h c (List.mem_cons_self c t)),
      ih (fun x hx => h x (List.mem_cons_of_mem c hx))]

theorem removeModuleQueryAux_fires_str (escs rest2 : List Char)
    (hne : escs ≠ []) (hamp : '&' ∉ escs)
    (htrue : ("true".data).isPrefixOf escs = false)
    (hrest : rest2 = [] ∨ ∃ r3, rest2 = '&' :: r3) :
    removeModuleQueryAux
      ('&' :: 'm' :: 'o' :: 'd' :: 'u' :: 'l' :: 'e' :: '=' :: (escs ++ rest2)) =
      rest2 := by
  have hall : ∀ x ∈ escs, (x != '&') = true := by
    intro x hx
    simp only [bne_iff_ne, ne_eq]
    exact fun e => hamp (e ▸ hx)
  have hnotrue : ("true".data).isPrefixOf (escs ++ rest2) = false := by
    apply prefix_append_boundary_false _ _ _ htrue (by decide)
    rcases hrest with rfl | ⟨r3, rfl⟩
    · exact Or.inl rfl
    · exact Or.inr (Or.inr ⟨_, rfl⟩)
  have hesc : escs.isEmpty = false := by
    cases escs with
    | nil => exact absurd rfl hne
    | cons c t => rfl
  have htw : rest2.takeWhile (fun c => c != '&') = [] := by
    rcases hrest with rfl | ⟨r3, rfl⟩
    · rfl
    · simp [List.takeWhile_cons]
  have hdw : rest2.dropWhile (fun c => c != '&') = rest2 := by
    rcases hrest with rfl | ⟨r3, rfl⟩
    · rfl
    · simp [List.dropWhile_cons]
  rw [removeModuleQueryAux]
  split
  · rename_i heq
    exfalso
    rw [takeWhile_all_append _ escs rest2 hall, htw, List.append_nil, hesc] at heq
    exact absurd heq (by simp)
  · rw [dropWhile_all_append _ escs rest2 hall, hdw]
  · intro t2 h2
    have hh : ("true".data).isPrefixOf (escs ++ rest2) = true := by
      rw [h2]
      simp [List.isPrefixOf]
    rw [hh] at hnotrue
    exact absurd hnotrue (by simp)

theorem aux_module_shape (m : AttrVal)
    (hm : m = .boolT ∨ ∃ s, m = .str s ∧ s ≠ "" ∧
      ("true".data).isPrefixOf (escapeChars s.data) = false) :
    (attrQueryMain [("module", m)]).data =
      '&' :: 'm' :: 'o' :: 'd' :: 'u' :: 'l' :: 'e' :: '=' ::
        escapeChars (valString m).data := by
  rcases hm with rfl | ⟨s, rfl, hs, _⟩
  · decide
  · have hie : s.isEmpty = false := by
      rw [Bool.eq_false_iff]
      intro h
      exact hs ((String.isEmpty_iff s).mp h)
    have hv : valTruthy (AttrVal.str s) = true := by
      rw [valTruthy, hie]
      rfl
    rw [attrQueryMain, show attrQueryMain [] = "" from rfl, String.append_empty,
      if_neg (by decide), if_pos hv]
    rfl

theorem aux_module_fires (m : AttrVal) (rest2 : List Char)
    (hm : m = .boolT ∨ ∃ s, m = .str s ∧ s ≠ "" ∧
      ("true".data).isPrefixOf (escapeChars s.data) = false)
    (hrest : rest2 = [] ∨ ∃ r3, rest2 = '&' :: r3) :
    removeModuleQueryAux ((attrQueryMain [("module", m)]).data ++ rest2) = rest2 := by
  rw [aux_module_shape m hm]
  rcases hm with rfl | ⟨s, rfl, hs, htrue⟩
  · show removeModuleQueryAux
      ('&' :: 'm' :: 'o' :: 'd' :: 'u' :: 'l' :: 'e' :: '=' ::
        (escapeChars (valString AttrVal.boolT).data ++ rest2)) = rest2
    rw [show escapeChars (valString AttrVal.boolT).data = 't' :: 'r' :: 'u' :: 'e' :: []
      from by decide]
    rfl
  · show removeModuleQueryAux
      ('&' :: 'm' :: 'o' :: 'd' :: 'u' :: 'l' :: 'e' :: '=' ::
        (escapeChars (valString (AttrVal.str s)).data ++ rest2)) = rest2
    exact removeModuleQueryAux_fires_str _ _ (escapeChars_ne_nil s hs)
      (fun hmem => (mem_escapeChars_ne s.data '&' hmem).1 rfl) htrue hrest

/-- The module query parameter of a CSS-module style is stripped exactly:
for an attribute map with the `module` attribute at any position, the
encoded query with the module parameter removed equals the encoded query
of the same map without the module attribute — same remaining parameters,
same lang suffix — provided no earlier escaped key begins with `module`
and the module value is boolean or a non-empty string whose escape does
not begin with `true`. -/
theorem removeModule_attrsToQuery (pre post : List (String × AttrVal)) (m : AttrVal)
    (fb : Option String) (force : Bool)
    (hpre : ∀ p ∈ pre, ("module".data).isPrefixOf (escapeChars p.1.data) = false)
    (hm : m = .boolT ∨ ∃ s, m = .str s ∧ s ≠ "" ∧
      ("true".data).isPrefixOf (escapeChars s.data) = false) :
    removeModuleQuery (attrsToQuery (pre ++ ("module", m) :: post) fb force) =
      attrsToQuery (pre ++ post) fb force := by
  have hlk : lookupAttr "lang" (pre ++ ("module", m) :: post) =
      lookupAttr "lang" (pre ++ post) :=
    lookupAttr_append_skip "lang" pre post ("module", m) rfl
  have hq1 : attrQueryMain (pre ++ ("module", m) :: post) =
      attrQueryMain pre ++ (attrQueryMain [("module", m)] ++ attrQueryMain post) := by
    rw [show pre ++ ("module", m) :: post = pre ++ ([("module", m)] ++ post) from rfl,
      attrQueryMain_append, attrQueryMain_append]
  have core : ∀ T : String, (T.data = [] ∨ ∃ r, T.data = '&' :: r) →
      removeModuleQuery (attrQueryMain (pre ++ ("module", m) :: post) ++ T) =
        attrQueryMain (pre ++ post) ++ T := by
    intro T hT
    apply String.ext
    show removeModuleQueryAux
      ((attrQueryMain (pre ++ ("module", m) :: post) ++ T).data) = _
    have htail2 : (attrQueryMain post).data ++ T.data = [] ∨
        ∃ r, (attrQueryMain post).data ++ T.data = '&' :: r := by
      rcases attrQueryMain_shape post with h0 | ⟨r0, h0⟩
      · rw [h0, List.nil_append]
        exact hT
      · rw [h0]
        exact Or.inr ⟨_, rfl⟩
    have hmodshape : ∃ rr,
        (attrQueryMain [("module", m)]).data ++ ((attrQueryMain post).data ++ T.data) =
          '&' :: rr := by
      rw [aux_module_shape m hm]
      exact ⟨_, rfl⟩
    have e1 : ((attrQueryMain (pre ++ ("module", m) :: post)) ++ T).data =
        (attrQueryMain pre).data ++
          ((attrQueryMain [("module", m)]).data ++
            ((attrQueryMain post).data ++ T.data)) := by
      rw [hq1]
      simp [str_data_append, List.append_assoc]
    rw [e1, aux_skip_attrQueryMain _ (Or.inr hmodshape) pre hpre,
      aux_module_fires m _ hm htail2, attrQueryMain_append pre post]
    simp [str_data_append, List.append_assoc]
  simp only [attrsToQuery, hlk]
  by_cases hcond :
      (optStrTruthy fb || optValTruthy (lookupAttr "lang" (pre ++ post))) = true
  · rw [if_pos hcond, if_pos hcond]
    rcases hsuf : lookupAttr "lang" (pre ++ post) with _ | lv
    · exact core _ (Or.inr ⟨_, rfl⟩)
    · cases force
      · exact core _ (Or.inr ⟨_, rfl⟩)
      · exact core _ (Or.inr ⟨_, rfl⟩)
  · rw [if_neg hcond, if_neg hcond]
    have h0 := core "" (Or.inl rfl)
    rw [String.append_empty, String.append_empty] at h0
    exact h0

/-- C2, counterexample: the assembled output of the §8 example document
does not contain the literal assignment text the claim pins down — the
assignment goes through the `cssModules` alias instead. -/
theorem C2_css_modules_counterexample :
    strInfixB "script.__cssModules[\"classes\"] = style1"
      (outputCodeOf (exTransform exStyleDoc false)) = false := by decide

/-- C2, amended: for every style section whose module flag is truthy the
router generates exactly two addresses — a side-effect import of the
module-stripped request and an export-map import of the with-module
request carrying a `.js` suffix — and the assembled fragment assigns the
imported export map into the CSS-modules map under the section's string
module name, or `$style` when the flag is boolean, through the alias
established by `const cssModules = script.__cssModules = {}` (the
assignment text for the §8 example is `cssModules["classes"] = style1`,
not `script.__cssModules[...]`).  The module-stripped request targets the
same path and the same remaining query: wherever the module attribute sits
in the attribute map, stripping it from the encoded query yields exactly
the encoding of the same map without the module attribute, provided no
earlier escaped key begins with `module` and the module value is boolean
or a non-empty string whose escape does not begin with `true` (the
encoder's removal pattern prefers its `=true` alternative, so such values
are only partially stripped). -/
theorem C2_css_modules_amended :
    (∀ (st : SFCStyleBlock) (m : AttrVal) (rest : List SFCStyleBlock) (i : Nat)
      (hasMods : Bool) (p id : String) (pre : Bool),
      st.module = some m → valTruthy m = true →
      genStyleItems p id pre i hasMods (st :: rest) =
        (if hasMods then ""
         else "\nconst cssModules = script.__cssModules = \x7b\x7d") ++
        ("\nimport " ++ jsonStringify (styleRequestNoModuleStr st i p id pre) ++
         ("\nimport style" ++ toString i ++ " from ") ++
         jsonStringify (styleRequestStr st i p id pre ++ ".js") ++
         ("\ncssModules[\"" ++ cssModuleName m ++ "\"] = style" ++ toString i)) ++
        genStyleItems p id pre (i + 1) true rest) ∧
    (∀ (preA postA : List (String × AttrVal)) (m : AttrVal) (st : SFCStyleBlock)
      (i : Nat) (p id : String) (preB : Bool),
      st.attrs = preA ++ ("module", m) :: postA →
      (∀ q ∈ preA, ("module".data).isPrefixOf (escapeChars q.1.data) = false) →
      (m = .boolT ∨ ∃ s, m = .str s ∧ s ≠ "" ∧
        ("true".data).isPrefixOf (escapeChars s.data) = false) →
      styleRequestStr st i p id preB =
        jsOrStr st.src p ++
          ("?vue&type=style&index=" ++ toString i ++
            (if optStrTruthy st.src then "&src" else "") ++ ("&id=" ++ id)) ++
          attrsToQuery (preA ++ ("module", m) :: postA) (some "css") preB ∧
      styleRequestNoModuleStr st i p id preB =
        jsOrStr st.src p ++
          ("?vue&type=style&index=" ++ toString i ++
            (if optStrTruthy st.src then "&src" else "") ++ ("&id=" ++ id)) ++
          attrsToQuery (preA ++ postA) (some "css") preB) ∧
    countSubstr "&index=1" (outputCodeOf (exTransform exStyleDoc false)) = 2 ∧
    countSubstr "&index=0" (outputCodeOf (exTransform exStyleDoc false)) = 1 ∧
    strInfixB "\nimport \"/proj/src/App.vue?vue&type=style&index=1&id=hid&lang.css\""
      (outputCodeOf (exTransform exStyleDoc false)) = true ∧
    strInfixB
      "\nimport style1 from \"/proj/src/App.vue?vue&type=style&index=1&id=hid&module=classes&lang.css.js\""
      (outputCodeOf (exTransform exStyleDoc false)) = true ∧
    strInfixB "\nconst cssModules = script.__cssModules = \x7b\x7d"
      (outputCodeOf (exTransform exStyleDoc false)) = true ∧
    strInfixB "\ncssModules[\"classes\"] = style1"
      (outputCodeOf (exTransform exStyleDoc false)) = true ∧
    strInfixB "cssModules[\"$style\"] = style0"
      (genStyleCode { styles := [{ attrs := [("module", AttrVal.boolT)], module := some AttrVal.boolT }] }
        "P" "hid" false) = true := by
  refine ⟨?_, ?_, by decide, by decide, by decide, by decide, by decide, by decide,
    by decide⟩
  · intro st m rest i hasMods p id pre h1 h2
    exact genStyleItems_module_fragment st m rest i hasMods p id pre h1 h2
  · intro preA postA m st i p id preB hattrs hpreA hm
    constructor
    · simp only [styleRequestStr]
      rw [hattrs]
    · simp only [styleRequestNoModuleStr]
      rw [hattrs, removeModule_attrsToQuery preA postA m (some "css") preB hpreA hm]

/-- C2, witness for the amended statement: the §8 module style section
(string name `classes`, module attribute as sole attribute) exercises both
hypothesized parts. -/
theorem C2_css_modules_witness :
    ({ attrs := [("module", AttrVal.str "classes")],
       module := some (AttrVal.str "classes") } : SFCStyleBlock).module =
        some (AttrVal.str "classes") ∧
    valTruthy (AttrVal.str "classes") = true ∧
    genStyleItems "P" "hid" false 1 false
      [{ attrs := [("module", AttrVal.str "classes")],
         module := some (AttrVal.str "classes") }] =
      "\nconst cssModules = script.__cssModules = \x7b\x7d" ++
      "\nimport \"P?vue&type=style&index=1&id=hid&lang.css\"" ++
      "\nimport style1 from \"P?vue&type=style&index=1&id=hid&module=classes&lang.css.js\"" ++
      "\ncssModules[\"classes\"] = style1" ∧
    styleRequestNoModuleStr
      { attrs := [("module", AttrVal.str "classes")],
        module := some (AttrVal.str "classes") } 1 "P" "hid" false =
      "P?vue&type=style&index=1&id=hid&lang.css" := by
  refine ⟨by decide, by decide, ?_, ?_⟩
  · exact (C2_css_modules_amended.1
      { attrs := [("module", AttrVal.str "classes")],
        module := some (AttrVal.str "classes") }
      (AttrVal.str "classes") [] 1 false "P" "hid" false rfl (by decide)).trans
      (by decide)
  · exact ((C2_css_modules_amended.2.1 [] [] (AttrVal.str "classes")
      { attrs := [("module", AttrVal.str "classes")],
        module := some (AttrVal.str "classes") }
      1 "P" "hid" false rfl (by simp)
      (Or.inr ⟨"classes", rfl, by decide, by decide⟩)).2).trans (by decide)

/-- C6, counterexample: neither the script address nor a custom-block
address carries an `id` query parameter — for a document with only a
script (or only custom blocks) no `&id=` occurs anywhere in the assembled
output even though a scope token exists. -/
theorem C6_id_param_counterexample :
    strInfixB "&id=" (scriptRequestStr {} "/proj/src/App.vue") = false ∧
    strInfixB "&id="
      (customBlockRequestStr { type := "i18n" } 0 "/proj/src/App.vue") = false ∧
    strInfixB "&id=" (outputCodeOf (exTransform exScriptDoc false)) = false ∧
    strInfixB "&id=" (outputCodeOf (exTransform exCustomDoc false)) = false := by
  refine ⟨by decide, by decide, by decide, by decide⟩

/-- C6, amended: the template address and both style addresses (with and
without the module flag) always carry `&id=<scope token>`; the script and
custom-block addresses are built without an `id` parameter. -/
theorem C6_id_param_amended :
    (∀ (t : SFCBlock) (p i : String),
      strInfixB ("&id=" ++ i) (templateRequestStr t p i) = true) ∧
    (∀ (st : SFCStyleBlock) (n : Nat) (p i : String) (pre : Bool),
      strInfixB ("&id=" ++ i) (styleRequestStr st n p i pre) = true ∧
      strInfixB ("&id=" ++ i) (styleRequestNoModuleStr st n p i pre) = true) ∧
    strInfixB "&id=" (scriptRequestStr { attrs := [("x", .str "y")] }
      "/proj/src/App.vue") = false ∧
    strInfixB "&id=" (customBlockRequestStr { type := "docs" } 1
      "/proj/src/App.vue") = false := by
  refine ⟨?_, ?_, by decide, by decide⟩
  · intro t p i
    apply strInfixB_parts _ (jsOrStr t.src p ++ "?vue&type=template")
      ((if optStrTruthy t.src then "&src" else "") ++ attrsToQuery t.attrs (some "js") true)
    simp only [templateRequestStr, str_data_append, List.append_assoc]
  · intro st n p i pre
    constructor
    · apply strInfixB_parts _
        (jsOrStr st.src p ++ "?vue&type=style&index=" ++ toString n ++
          (if optStrTruthy st.src then "&src" else ""))
        (attrsToQuery st.attrs (some "css") pre)
      simp only [styleRequestStr, str_data_append, List.append_assoc]
    · apply strInfixB_parts _
        (jsOrStr st.src p ++ "?vue&type=style&index=" ++ toString n ++
          (if optStrTruthy st.src then "&src" else ""))
        (removeModuleQuery (attrsToQuery st.attrs (some "css") pre))
      simp only [styleRequestNoModuleStr, str_data_append, List.append_assoc]

/-- C7, counterexample: for the script-setup document without server
rendering no template address is generated, yet the assembled output binds
no render function at all — the no-op placeholder text appears nowhere. -/
theorem C7_render_binding_counterexample :
    countSubstr "type=template" (outputCodeOf (exTransform exSetupDoc false)) = 0 ∧
    strInfixB "const render = () => \x7b\x7d"
      (outputCodeOf (exTransform exSetupDoc false)) = false ∧
    strInfixB "const ssrRender = () => \x7b\x7d"
      (outputCodeOf (exTransform exSetupDoc false)) = false ∧
    strInfixB "render" (outputCodeOf (exTransform exSetupDoc false)) = false := by
  refine ⟨by decide, by decide, by decide, by decide⟩

/-- C7, amended: when no template address is generated the output contains
neither a template import nor any render binding (both parts are empty);
the no-op placeholder exists only as the unreachable default of the
template generator, emitted for a descriptor without a template. -/
theorem C7_render_binding_amended :
    (∀ (d : SFCDescriptor) (p i : String) (sv : Bool),
      (d.template.isSome && (sv || d.scriptSetup.isNone)) = false →
      templateImportPart d p i sv = "" ∧ renderReplacePart d sv = "") ∧
    genTemplateCode {} "P" "hid" false = "const render = () => \x7b\x7d" := by
  refine ⟨?_, by decide⟩
  intro d p i sv h
  constructor
  · rw [templateImportPart, h, if_neg (by simp)]
  · rw [renderReplacePart, h, if_neg (by simp)]

/-- C7, witness for the amended statement at the script-setup document. -/
theorem C7_render_binding_witness :
    (exSetupDoc.template.isSome && (false || exSetupDoc.scriptSetup.isNone)) = false ∧
    templateImportPart exSetupDoc "P" "hid" false = "" ∧
    renderReplacePart exSetupDoc false = "" := by
  refine ⟨by decide, ?_, ?_⟩
  · exact (C7_render_binding_amended.1 exSetupDoc "P" "hid" false (by decide)).1
  · exact (C7_render_binding_amended.1 exSetupDoc "P" "hid" false (by decide)).2

theorem getCustomBlockItems_enumFrom (p : String) (f : String → Bool)
    (bs : List SFCCustomBlock) : ∀ n, getCustomBlockItems p f n bs =
      strConcat ((List.enumFrom n bs).map
        (fun pr => if f pr.2.type then customBlockCode pr.2 pr.1 p else "")) := by
  induction bs with
  | nil => intro n; rfl
  | cons b rest ih =>
    intro n
    rw [getCustomBlockItems, List.enumFrom_cons, List.map_cons, ih (n + 1)]
    rfl

theorem getCustomBlockItems_reject (p : String) (bs : List SFCCustomBlock) :
    ∀ n, getCustomBlockItems p (fun _ => false) n bs = "" := by
  induction bs with
  | nil => intro n; rfl
  | cons b rest ih =>
    intro n
    rw [getCustomBlockItems, if_neg (by simp), ih (n + 1)]
    rfl

/-- C8: a custom block yields its `type=<blockType>&index=<n>` address and
its import/invocation lines exactly when its type passes the filter; the index
is the block's position in parse order over all custom blocks (rejected
ones included), and a rejected block contributes no text: the loop equals
the enumerated map-and-concatenate form, an all-rejecting filter yields
the empty string, and in the two-block example the accepted second block
keeps index 1 while the rejected first block leaves no trace. -/
theorem C8_custom_blocks :
    (∀ (d : SFCDescriptor) (p : String) (f : String → Bool),
      getCustomBlock d p f = strConcat (d.customBlocks.enum.map
        (fun pr => if f pr.2.type then customBlockCode pr.2 pr.1 p else ""))) ∧
    (∀ (d : SFCDescriptor) (p : String),
      getCustomBlock d p (fun _ => false) = "") ∧
    strInfixB "type=docs&index=1"
      (getCustomBlock exCustomDoc "P" (fun t => t == "docs")) = true ∧
    strInfixB "&index=0"
      (getCustomBlock exCustomDoc "P" (fun t => t == "docs")) = false ∧
    strInfixB "i18n"
      (getCustomBlock exCustomDoc "P" (fun t => t == "docs")) = false ∧
    getCustomBlock exCustomDoc "P" (fun t => t == "i18n") =
      "import block0 from \"P?vue&type=i18n&index=0&lang.i18n\"\n" ++
      "if (typeof block0 === \u0027function\u0027) block0(script)\n" := by
  refine ⟨?_, ?_, by decide, by decide, by decide, by decide⟩
  · intro d p f
    rw [getCustomBlock]
    exact getCustomBlockItems_enumFrom p f d.customBlocks 0
  · intro d p
    rw [getCustomBlock]
    exact getCustomBlockItems_reject p d.customBlocks 0

/-- C9: whenever the external parser reports at least one structural
diagnostic, the transform reports every diagnostic (paired with the
resource identity) to its caller and returns null — no module text and no
source map are produced, so the assembler is never invoked. -/
theorem C9_parse_errors (d : SFCDescriptor) (e : SFCError) (errs : List SFCError)
    (hashFn : String → String) (pathRel : String → String → String)
    (csFn : Option (SFCDescriptor → String → Bool → Bool → SFCBlock))
    (code resourcePath : String) (options : Options) (sourceRoot : String)
    (isProduction isServer : Bool) (filt : String → Bool)
    (cache : DescriptorCache) :
    (transformSFCEntry (fun _ => ⟨d, e :: errs⟩) hashFn pathRel csFn code
      resourcePath options sourceRoot isProduction isServer filt cache).reported =
      (e :: errs).map (createRollupError resourcePath) ∧
    (transformSFCEntry (fun _ => ⟨d, e :: errs⟩) hashFn pathRel csFn code
      resourcePath options sourceRoot isProduction isServer filt cache).result =
      none :=
  ⟨rfl, rfl⟩

/-- C10: the cache entry for the resource identity is overwritten with the
newly parsed descriptor before the parse-error check — even a transform
that aborts with diagnostics and returns null has already replaced the
cached descriptor, whatever the cache held before. -/
theorem C10_cache_overwrite (d : SFCDescriptor) (e : SFCError)
    (errs : List SFCError) (hashFn : String → String)
    (pathRel : String → String → String)
    (csFn : Option (SFCDescriptor → String → Bool → Bool → SFCBlock))
    (code resourcePath : String) (options : Options) (sourceRoot : String)
    (isProduction isServer : Bool) (filt : String → Bool)
    (cache : DescriptorCache) :
    (transformSFCEntry (fun _ => ⟨d, e :: errs⟩) hashFn pathRel csFn code
      resourcePath options sourceRoot isProduction isServer filt cache).cache
      resourcePath = some d ∧
    (transformSFCEntry (fun _ => ⟨d, e :: errs⟩) hashFn pathRel csFn code
      resourcePath options sourceRoot isProduction isServer filt cache).result =
      none := by
  constructor
  · show setDescriptor resourcePath d cache resourcePath = some d
    rw [setDescriptor, if_pos rfl]
  · rfl
